import Mathlib

/-!
Shallow embedding of the pulse-acquisition and dose-statistics pipeline of the
Radiation-Detector firmware (src/Firmware/Radiation_Detector/src/Radiation-Detector.cpp).

Modelling conventions: floating-point quantities (dose rates, chart buffers,
accumulators) are modelled as exact rationals; the 16-bit hardware counter
values are integers; wall-clock times in milliseconds are naturals.  Each C
function touching the shared state is rendered as a pure state-transition
function on an explicit state record.
-/

namespace RadiationDetector

/-- CONVERSION_FACTOR = 153.8f (CPM to uSv/h for the SBM-20 tube). -/
def CONVERSION_FACTOR : ℚ := 1538 / 10

/-- PULSE_HISTORY_SIZE = 60 one-second intervals in a ring buffer. -/
def PULSE_HISTORY_SIZE : Nat := 60

/-- SMOOTHING_WINDOW_SIZE = 5, size of the moving average window. -/
def SMOOTHING_WINDOW_SIZE : Nat := 5

/-- CHART1_SEGMENTS = 20 (1-hour chart at 3-minute resolution). -/
def CHART1_SEGMENTS : Nat := 20

/-- CHART1_INTERVAL_SECONDS = 180. -/
def CHART1_INTERVAL_SECONDS : ℚ := 180

/-- CHART3_SEGMENTS = 24 (24-hour chart at 1-hour resolution). -/
def CHART3_SEGMENTS : Nat := 24

/-- CHART3_INTERVAL_SECONDS = 3600. -/
def CHART3_INTERVAL_SECONDS : ℚ := 3600

/-- ALARM_FREQ1 = 1000 Hz. -/
def ALARM_FREQ1 : Nat := 1000

/-- ALARM_FREQ2 = 1500 Hz. -/
def ALARM_FREQ2 : Nat := 1500

/-- ALARM_TONE_DURATION = 200 ms. -/
def ALARM_TONE_DURATION : Nat := 200

/-- ALARM_PAUSE_DURATION = 50 ms. -/
def ALARM_PAUSE_DURATION : Nat := 50

/-!
### SecondBucketizer (updatePulseHistory, lines 537-562, and pulseTask, lines 989-1036)

Both code paths poll the 16-bit hardware counter, take the difference with the
previously retained reading, clamp a negative difference to 0, and accumulate
the clamped differences; once a second has elapsed the accumulated value is
committed into the 60-entry pulseHistory ring buffer and added to totalCounts.
`updatePulseHistory` computes the difference in full int precision
(`int diff = currentCount16 - lastPCNTCount16`), while `pulseTask` truncates it
back to int16_t (`int16_t diff = currentCount - lastCount`); both clamp before
accumulating.
-/

/-- Truncation of an integer to the int16_t range, as performed by the
narrowing assignment in pulseTask. -/
def toInt16 (n : Int) : Int := (n + 32768) % 65536 - 32768

/-- Shared mutable state of the second-bucketizer: the retained previous
counter reading, the pending-second accumulator, the 60-entry per-second
history with its write index, and the running total count. -/
structure PulseState where
  lastCount : Int
  accumulator : Int
  history : List Int
  index : Nat
  totalCounts : Int

/-- Events driving the bucketizer: a 100 ms poll as in updatePulseHistory, a
50 ms poll as in pulseTask (int16-truncated difference), and the once-per-second
commit of the accumulator into the ring buffer. -/
inductive PulseEvent where
  | poll (reading : Int)
  | pollTask (reading : Int)
  | commit

/-- The clamp `if (diff < 0) diff = 0;`. -/
def clampDiff (d : Int) : Int := if d < 0 then 0 else d

/-- Poll step of updatePulseHistory: full-int difference, clamped, accumulated. -/
def pollStepMain (s : PulseState) (reading : Int) : PulseState :=
  { s with lastCount := reading,
           accumulator := s.accumulator + clampDiff (reading - s.lastCount) }

/-- Poll step of pulseTask: difference truncated to int16_t, clamped, accumulated. -/
def pollStepTask (s : PulseState) (reading : Int) : PulseState :=
  { s with lastCount := reading,
           accumulator := s.accumulator + clampDiff (toInt16 (reading - s.lastCount)) }

/-- Per-second commit: store the accumulator in the ring buffer, advance the
write index modulo 60, add to totalCounts, reset the accumulator. -/
def commitStep (s : PulseState) : PulseState :=
  { s with history := s.history.set s.index s.accumulator,
           index := (s.index + 1) % PULSE_HISTORY_SIZE,
           totalCounts := s.totalCounts + s.accumulator,
           accumulator := 0 }

/-- One bucketizer transition. -/
def pulseStep (s : PulseState) : PulseEvent → PulseState
  | .poll r => pollStepMain s r
  | .pollTask r => pollStepTask s r
  | .commit => commitStep s

/-- A run of the bucketizer over a list of events. -/
def pulseRun (s : PulseState) (evs : List PulseEvent) : PulseState :=
  evs.foldl pulseStep s

/-- Initial state: counter hardware cleared, pulseHistory zeroed by memset in
setup(), index and totals zero. -/
def pulseInit : PulseState :=
  { lastCount := 0, accumulator := 0,
    history := List.replicate PULSE_HISTORY_SIZE 0,
    index := 0, totalCounts := 0 }

/-- Invariant carried by the bucketizer state: the pending accumulator and all
history entries are non-negative. -/
def PulseInv (s : PulseState) : Prop :=
  0 ≤ s.accumulator ∧ ∀ x ∈ s.history, 0 ≤ x
/-!
### RateEstimator (getRealTimeCPM, lines 573-591)

The C loop sums `pulseHistory[i]` and counts an entry as a valid second when
`pulseHistory[i] >= 0`; if `validSeconds < PULSE_HISTORY_SIZE && validSeconds > 0`
it returns `(int)((float)sum * ((float)PULSE_HISTORY_SIZE / (float)validSeconds))`,
otherwise the plain sum.  The float multiply-then-truncate is modelled as exact
rational arithmetic followed by the floor (the operands are non-negative on the
extrapolation branch, so C's truncation toward zero is a floor).
-/

/-- getRealTimeCPM over the 60-entry per-second history. -/
def getRealTimeCPM (history : List Int) : Int :=
  let valid := history.filter (fun x => decide (0 ≤ x))
  let sum := valid.sum
  let validSeconds := valid.length
  if validSeconds < PULSE_HISTORY_SIZE ∧ 0 < validSeconds then
    ⌊(sum : ℚ) * ((PULSE_HISTORY_SIZE : ℚ) / (validSeconds : ℚ))⌋
  else sum

/-!
### Real-time statistics (updateRealTimeStats, lines 1340-1378, and
updateLabels, lines 1380-1405)

`updateRealTimeStats(cpm, dtSec)` pushes `cpm / CONVERSION_FACTOR` into the
5-slot smoothing window at `currentReadingIndex`, advances the index modulo 5,
then averages over the entries satisfying
`currentReadingsWindow[i] > 0 || i < currentReadingIndex`; it updates the
all-time average from totalCounts and elapsed time, updates the maximum only
when `currentuSvHr > maxuSvHr && currentuSvHr < 100.0f`, and integrates
`(currentuSvHr / 3600) * dtSec / 1000` into cumulativemSv.  `millis()` is an
explicit input `now`.
-/

/-- Shared statistics state mutated by updateRealTimeStats. -/
structure StatsState where
  window : List ℚ
  windowIndex : Nat
  currentuSvHr : ℚ
  averageuSvHr : ℚ
  maxuSvHr : ℚ
  cumulativemSv : ℚ
  totalCounts : Int
  startTime : Nat

/-- Per-cycle inputs of updateRealTimeStats: the CPM reading, the wall-clock
delta in seconds, and the current millis() value. -/
structure StatsInput where
  cpm : ℚ
  dtSec : ℚ
  now : Nat

/-- The indices of the smoothing window counted as valid readings by the C
loop: `currentReadingsWindow[i] > 0 || i < currentReadingIndex` (the index
already advanced past the slot just written). -/
def validWindowIdx (window : List ℚ) (idx : Nat) : List Nat :=
  (List.range SMOOTHING_WINDOW_SIZE).filter
    (fun i => decide (0 < window.getD i 0) || decide (i < idx))

/-- updateRealTimeStats as a state transition. -/
def updateRealTimeStats (s : StatsState) (inp : StatsInput) : StatsState :=
  let rawCurrentuSvHr := inp.cpm / CONVERSION_FACTOR
  let window := s.window.set s.windowIndex rawCurrentuSvHr
  let idx := (s.windowIndex + 1) % SMOOTHING_WINDOW_SIZE
  let valid := validWindowIdx window idx
  let sum := (valid.map (fun i => window.getD i 0)).sum
  let validReadings := valid.length
  let current : ℚ := if 0 < validReadings then sum / (validReadings : ℚ) else 0
  let totalTimeMin : ℚ := ((inp.now : ℚ) - (s.startTime : ℚ)) / 60000
  let average : ℚ :=
    if 0 < totalTimeMin then ((s.totalCounts : ℚ) / totalTimeMin) / CONVERSION_FACTOR
    else s.averageuSvHr
  let maxV : ℚ := if s.maxuSvHr < current ∧ current < 100 then current else s.maxuSvHr
  let doseIncrement_mSv := current / 3600 * inp.dtSec / 1000
  { s with window := window, windowIndex := idx, currentuSvHr := current,
           averageuSvHr := average, maxuSvHr := maxV,
           cumulativemSv := s.cumulativemSv + doseIncrement_mSv }

/-- A run of consecutive sampling cycles. -/
def statsRun (s : StatsState) (inps : List StatsInput) : StatsState :=
  inps.foldl updateRealTimeStats s

/-- Initial statistics state: window zeroed, all statistics zero. -/
def statsInit : StatsState :=
  { window := List.replicate SMOOTHING_WINDOW_SIZE 0, windowIndex := 0,
    currentuSvHr := 0, averageuSvHr := 0, maxuSvHr := 0, cumulativemSv := 0,
    totalCounts := 0, startTime := 0 }

/-- updateLabels publishes the four statistics unmodified (the snprintf
formatting reads currentuSvHr, averageuSvHr, maxuSvHr, cumulativemSv directly,
with no clamping). -/
def updateLabels (s : StatsState) : ℚ × ℚ × ℚ × ℚ :=
  (s.currentuSvHr, s.averageuSvHr, s.maxuSvHr, s.cumulativemSv)

/-- Modelled from the spec: the smoothing mean the claim describes — the
arithmetic mean of the currently-written window entries, i.e. of the most
recent `min k 5` raw dose-rate readings after `k` pushes. -/
def specSmoothedMean (raws : List ℚ) : ℚ :=
  let w := raws.reverse.take SMOOTHING_WINDOW_SIZE
  if w.length = 0 then 0 else w.sum / (w.length : ℚ)

/-- Content of the smoothing window after the raw readings `raws` have been
pushed from a fresh window: the cursor is the push count modulo 5; while fewer
than five readings were pushed the window is the pushed readings followed by
the untouched zero slots; once at least five were pushed, reading the window
cyclically from the cursor yields the five most recent readings oldest
first. -/
def statsWindowInv (raws : List ℚ) (s : StatsState) : Prop :=
  s.windowIndex = raws.length % SMOOTHING_WINDOW_SIZE
  ∧ s.window.length = SMOOTHING_WINDOW_SIZE
  ∧ (raws.length < SMOOTHING_WINDOW_SIZE →
      s.window = raws ++ List.replicate (SMOOTHING_WINDOW_SIZE - raws.length) 0)
  ∧ (SMOOTHING_WINDOW_SIZE ≤ raws.length →
      s.window.rotate s.windowIndex
        = raws.drop (raws.length - SMOOTHING_WINDOW_SIZE))
/-!
### IntervalAggregator (accumulateCharts, lines 637-717)

Each cycle `accumulateCharts(cpm, dtSec)` adds `cpm * dtSec` to an accumulator
and `dtSec` to an elapsed-time counter, once per chart instance.  When the
elapsed time reaches the interval length, the time-weighted average CPM is
divided by CONVERSION_FACTOR; while `chartIndex < SEGMENTS` the value is
written at the index (which is then incremented), otherwise the buffer is
shifted left by one (memmove) and the value placed in the last slot.  The
dynamic display maximum is then recomputed: starting from 1.0, take the
maximum over the populated slots `i < chartIndex`, multiply by 1.2f, round up
with ceil, and clamp up to 1.0; finally both accumulators reset to 0.  The
two instances use (180 s, 20) and (3600 s, 24).
-/

/-- State of one chart instance: ring buffer, write index, the two interval
accumulators and the dynamic display maximum. -/
structure ChartState where
  buffer : List ℚ
  index : Nat
  accumulatedCpm : ℚ
  elapsedSec : ℚ
  maxValue : ℚ

/-- One accumulateCharts step for a single chart instance with capacity `C`
and window length `W`; returns the new state and the committed bucket value
when the interval elapsed. -/
def chartStep (C : Nat) (W : ℚ) (s : ChartState) (inp : ℚ × ℚ) : ChartState × Option ℚ :=
  let accum := s.accumulatedCpm + inp.1 * inp.2
  let elapsed := s.elapsedSec + inp.2
  if W ≤ elapsed then
    let avgCpm := accum / elapsed
    let value := avgCpm / CONVERSION_FACTOR
    let bufIdx :=
      if s.index < C then (s.buffer.set s.index value, s.index + 1)
      else (s.buffer.drop 1 ++ [value], s.index)
    let base := (bufIdx.1.take bufIdx.2).foldl (fun m x => if m < x then x else m) 1
    let scaled : ℚ := ((⌈base * (6/5)⌉ : ℤ) : ℚ)
    let maxV := if scaled < 1 then 1 else scaled
    ({ buffer := bufIdx.1, index := bufIdx.2, accumulatedCpm := 0,
       elapsedSec := 0, maxValue := maxV }, some value)
  else
    ({ s with accumulatedCpm := accum, elapsedSec := elapsed }, none)

/-- A run of one chart instance over a list of (cpm, dtSec) samples,
collecting the committed bucket values in commit order. -/
def chartRun (C : Nat) (W : ℚ) (s : ChartState) : List (ℚ × ℚ) → ChartState × List ℚ
  | [] => (s, [])
  | inp :: rest =>
      let r1 := chartStep C W s inp
      let r2 := chartRun C W r1.1 rest
      (r2.1, r1.2.toList ++ r2.2)

/-- Initial chart state: buffer zeroed by memset, index 0, accumulators 0,
display maximum initialised to 1.0. -/
def chartInit (C : Nat) : ChartState :=
  { buffer := List.replicate C 0, index := 0, accumulatedCpm := 0,
    elapsedSec := 0, maxValue := 1 }

/-- Total time of a sample list. -/
def sumDt (l : List (ℚ × ℚ)) : ℚ := (l.map Prod.snd).sum

/-- Time-weighted CPM sum of a sample list. -/
def weightedSum (l : List (ℚ × ℚ)) : ℚ := (l.map (fun p => p.1 * p.2)).sum

/-- Abstraction relation between a chart state and the list `hist` of all
bucket values committed so far: the index is `min (#commits) C`, never above
`C`, and the populated slots hold the most recent `C` commits in order,
oldest first. -/
def ChartInv (C : Nat) (hist : List ℚ) (s : ChartState) : Prop :=
  s.buffer.length = C ∧ s.index = min hist.length C
    ∧ s.buffer.take s.index = hist.drop (hist.length - C)

/-- The hourly/daily arrays of getRadiationDataJson (lines 1657-1701): the
chart buffer read at `(chartIndex + i) % SEGMENTS` for `i = 0 .. SEGMENTS-1`. -/
def jsonChartArray (C : Nat) (buffer : List ℚ) (index : Nat) : List ℚ :=
  (List.range C).map (fun i => buffer.getD ((index + i) % C) 0)

/-- Modelled from the spec: the array the claim describes, read in order
starting from the oldest populated bucket (the populated slots, oldest first)
and ending with the newest, followed by the remaining slots. -/
def specJsonArray (buffer : List ℚ) (index : Nat) : List ℚ :=
  buffer.take index ++ buffer.drop index

/-- Modelled from the spec: the display maximum the claim describes — the
maximum value across the currently-populated buckets (alone), multiplied by
the 1.2 headroom factor, rounded up to the next whole number, floored at 1.0. -/
def specChartMax (populated : List ℚ) : ℚ :=
  let m := populated.foldl max 0
  let r : ℚ := ((⌈m * (6/5)⌉ : ℤ) : ℚ)
  if r < 1 then 1 else r

/-!
### AlarmEvaluator (checkAlarms, lines 455-495)

If the alarm is disabled the tone is forced off.  Otherwise, when
`currentuSvHr > currentThreshold || cumulativemSv > cumulativeThreshold`, a
new tone is started only when at least ALARM_TONE_DURATION +
ALARM_PAUSE_DURATION milliseconds have passed since the last start; the
frequency alternates between ALARM_FREQ1 and ALARM_FREQ2 via alarmToneToggle
and lastAlarmMillis is set to the current time.  When the condition does not
hold the tone is stopped unconditionally.  `millis()` is an explicit input.
-/

/-- Alarm output and retrigger state: whether the LEDC channel is emitting,
its configured frequency, the alternation flag and the last trigger time. -/
structure AlarmState where
  toneOn : Bool
  toneFreq : Nat
  alarmToneToggle : Bool
  lastAlarmMillis : Nat

/-- Inputs read by one checkAlarms call: the current time, the enable flag and
the readings and thresholds (thresholds already divided by 10 from the
spinbox fixed-point representation). -/
structure AlarmInput where
  now : Nat
  alarmDisabled : Bool
  currentuSvHr : ℚ
  cumulativemSv : ℚ
  currentThreshold : ℚ
  cumulativeThreshold : ℚ

/-- One checkAlarms call; the second component reports a tone-start event as
(time, frequency) when playAlarmTone was invoked. -/
def checkAlarms (s : AlarmState) (i : AlarmInput) : AlarmState × Option (Nat × Nat) :=
  if i.alarmDisabled then ({ s with toneOn := false }, none)
  else
    if i.currentThreshold < i.currentuSvHr ∨ i.cumulativeThreshold < i.cumulativemSv then
      if ALARM_TONE_DURATION + ALARM_PAUSE_DURATION ≤ i.now - s.lastAlarmMillis then
        let freq := if s.alarmToneToggle then ALARM_FREQ1 else ALARM_FREQ2
        ({ toneOn := true, toneFreq := freq, alarmToneToggle := !s.alarmToneToggle,
           lastAlarmMillis := i.now }, some (i.now, freq))
      else (s, none)
    else ({ s with toneOn := false }, none)

/-- A run of checkAlarms calls, collecting tone-start events in order. -/
def alarmRun (s : AlarmState) : List AlarmInput → AlarmState × List (Nat × Nat)
  | [] => (s, [])
  | i :: rest =>
      let r1 := checkAlarms s i
      let r2 := alarmRun r1.1 rest
      (r2.1, r1.2.toList ++ r2.2)

/-- Initial alarm state: buzzer silent at the 2000 Hz initBuzzer default,
toggle false, lastAlarmMillis 0. -/
def alarmInit : AlarmState :=
  { toneOn := false, toneFreq := 2000, alarmToneToggle := false, lastAlarmMillis := 0 }

/-- Relation between consecutive tone-start events: separated by at least the
tone-plus-pause interval (250 ms) and with different frequencies. -/
def alarmSep (a b : Nat × Nat) : Prop :=
  a.1 + (ALARM_TONE_DURATION + ALARM_PAUSE_DURATION) ≤ b.1 ∧ a.2 ≠ b.2

/-- The virtual previous tone-start encoded by an alarm state: its trigger
time, and the frequency opposite to the one the toggle will select next. -/
def virtualEvent (s : AlarmState) : Nat × Nat :=
  (s.lastAlarmMillis, if s.alarmToneToggle then ALARM_FREQ2 else ALARM_FREQ1)


lemma clampDiff_nonneg (d : Int) : 0 ≤ clampDiff d := by
  unfold clampDiff
  split <;> omega

lemma pulseStep_inv {s : PulseState} (h : PulseInv s) (e : PulseEvent) :
    PulseInv (pulseStep s e) := by
  obtain ⟨ha, hh⟩ := h
  cases e with
  | poll r =>
      exact ⟨add_nonneg ha (clampDiff_nonneg _), hh⟩
  | pollTask r =>
      exact ⟨add_nonneg ha (clampDiff_nonneg _), hh⟩
  | commit =>
      refine ⟨le_refl 0, ?_⟩
      intro x hx
      rcases List.mem_or_eq_of_mem_set hx with hx' | rfl
      · exact hh x hx'
      · exact ha

lemma pulseStep_totalCounts {s : PulseState} (h : PulseInv s) (e : PulseEvent) :
    s.totalCounts ≤ (pulseStep s e).totalCounts := by
  cases e with
  | poll r => exact le_refl _
  | pollTask r => exact le_refl _
  | commit => exact le_add_of_nonneg_right h.1

lemma pulseRun_inv {s : PulseState} (h : PulseInv s) (evs : List PulseEvent) :
    PulseInv (pulseRun s evs) := by
  induction evs generalizing s with
  | nil => exact h
  | cons e rest ih => exact ih (pulseStep_inv h e)

lemma pulseRun_totalCounts {s : PulseState} (h : PulseInv s) (evs : List PulseEvent) :
    s.totalCounts ≤ (pulseRun s evs).totalCounts := by
  induction evs generalizing s with
  | nil => exact le_refl _
  | cons e rest ih =>
      exact le_trans (pulseStep_totalCounts h e) (ih (pulseStep_inv h e))

lemma pulseInit_inv : PulseInv pulseInit := by
  constructor
  · exact le_refl 0
  · intro x hx
    have := List.eq_of_mem_replicate hx
    omega

/-- C1: for every sequence of 16-bit hardware counter readings (polled either
by updatePulseHistory or by pulseTask, in any interleaving with per-second
commits), every value stored in the 60-entry pulseHistory is non-negative, the
pending accumulator stays non-negative (negative differences are clamped to 0
before accumulation), and totalCounts never decreases as the run is extended. -/
theorem C1_pulse_history_nonneg (evs more : List PulseEvent) :
    (∀ x ∈ (pulseRun pulseInit evs).history, 0 ≤ x)
    ∧ 0 ≤ (pulseRun pulseInit evs).accumulator
    ∧ (pulseRun pulseInit evs).totalCounts
        ≤ (pulseRun pulseInit (evs ++ more)).totalCounts := by
  have hinv := pulseRun_inv pulseInit_inv evs
  refine ⟨hinv.2, hinv.1, ?_⟩
  have : pulseRun pulseInit (evs ++ more) = pulseRun (pulseRun pulseInit evs) more := by
    simp [pulseRun, List.foldl_append]
  rw [this]
  exact pulseRun_totalCounts hinv more

lemma getRealTimeCPM_plain_sum (history : List Int)
    (hlen : history.length = PULSE_HISTORY_SIZE)
    (hnn : ∀ x ∈ history, 0 ≤ x) :
    getRealTimeCPM history = history.sum := by
  have hfilter : history.filter (fun x => decide (0 ≤ x)) = history := by
    apply List.filter_eq_self.mpr
    intro x hx
    exact decide_eq_true (hnn x hx)
  unfold getRealTimeCPM
  rw [hfilter]
  simp only [hlen]
  simp

/-- C2 (code bug evidence): with exactly one written per-second entry of 10
counts (the remaining 59 slots still holding their zero initialisation), the
claimed cold-start extrapolation would return 10 * (60 / 1) = 600, but the code
returns the plain sum 10: the `>= 0` validity test counts never-written zero
slots as valid, so validSeconds is always 60 and the extrapolation branch is
unreachable.  More generally, on any full 60-slot history of non-negative
entries the function returns the plain sum. -/
theorem C2_cold_start_no_extrapolation :
    getRealTimeCPM (10 :: List.replicate 59 0) = 10
    ∧ getRealTimeCPM (10 :: List.replicate 59 0) ≠ 600
    ∧ (∀ history : List Int, history.length = PULSE_HISTORY_SIZE →
        (∀ x ∈ history, 0 ≤ x) → getRealTimeCPM history = history.sum) := by
  have h10 : getRealTimeCPM (10 :: List.replicate 59 0) = 10 := by
    rw [getRealTimeCPM_plain_sum]
    · simp
    · simp [PULSE_HISTORY_SIZE]
    · intro x hx
      rcases List.mem_cons.mp hx with rfl | hx'
      · omega
      · have := List.eq_of_mem_replicate hx'
        omega
  refine ⟨h10, ?_, fun h a b => getRealTimeCPM_plain_sum h a b⟩
  rw [h10]
  omega

/-- C3 (counterexample): feed four cycles of cpm = 153.8 (raw rate 1 µSv/h
each) and then one cycle of cpm = 0.  The window is now full and holds
[1, 1, 1, 1, 0] with the write cursor back at 0, so the code's validity test
`window[i] > 0 || i < cursor` drops the zero entry and publishes 4/4 = 1,
while the claimed mean over all five valid (written) entries is 4/5. -/
theorem C3_counterexample_zero_after_fill :
    (statsRun statsInit [⟨1538/10, 1, 0⟩, ⟨1538/10, 1, 0⟩, ⟨1538/10, 1, 0⟩,
        ⟨1538/10, 1, 0⟩, ⟨0, 1, 0⟩]).currentuSvHr
      ≠ specSmoothedMean ([1538/10, 1538/10, 1538/10, 1538/10, 0].map
          (fun c => c / CONVERSION_FACTOR)) := by
  have h1 : (1538:ℚ)/10 / CONVERSION_FACTOR = 1 := by norm_num [CONVERSION_FACTOR]
  have h0 : (0:ℚ) / CONVERSION_FACTOR = 0 := by norm_num [CONVERSION_FACTOR]
  have hrange : List.range 5 = [0,1,2,3,4] := rfl
  have hd0 : (decide ((0:ℚ) < 0)) = false := by decide
  have hd1 : (decide ((0:ℚ) < 1)) = true := by decide
  simp [statsRun, updateRealTimeStats, statsInit, validWindowIdx,
    SMOOTHING_WINDOW_SIZE, hrange, hd0, hd1, h1, h0,
    specSmoothedMean, List.filter_cons, List.getD_cons_succ, List.getD_cons_zero]
  norm_num

lemma rotate_set_succ {α : Type} (l : List α) (i : Nat) (r : α) (hi : i < l.length) :
    (l.set i r).rotate ((i + 1) % l.length) = (l.rotate i).drop 1 ++ [r] := by
  have hL : 0 < l.length := by omega
  apply List.ext_getElem
  · simp only [List.length_rotate, List.length_set, List.length_append,
      List.length_drop, List.length_cons, List.length_nil]
    omega
  · intro m h1 h2
    rw [List.getElem_rotate]
    simp only [List.length_set]
    have hmL : m < l.length := by simpa using h1
    have hidx : (m + (i + 1) % l.length) % l.length = (m + i + 1) % l.length := by
      have h := (Nat.mod_modEq (i + 1) l.length).add_left m
      simp only [Nat.ModEq, show m + (i + 1) = m + i + 1 by ring] at h
      exact h
    by_cases hm : m < l.length - 1
    · have hne : (m + (i + 1) % l.length) % l.length ≠ i := by
        rw [hidx]
        intro heq
        have h3 : (m + i + 1) % l.length = i % l.length := by
          rw [heq, Nat.mod_eq_of_lt hi]
        have h4 : l.length ∣ (m + i + 1) - i := by
          exact (Nat.modEq_iff_dvd' (by omega)).mp h3.symm
        have h5 : (m + i + 1) - i = m + 1 := by omega
        rw [h5] at h4
        rcases h4 with ⟨c, hc⟩
        rcases c with _ | c
        · omega
        · have : l.length ≤ m + 1 := by
            rw [hc]
            exact Nat.le_mul_of_pos_right _ (by omega)
          omega
      rw [List.getElem_set_ne (Ne.symm hne)]
      rw [List.getElem_append_left (by
        simp only [List.length_drop, List.length_rotate]
        omega)]
      rw [List.getElem_drop]
      rw [List.getElem_rotate]
      congr 1
      rw [hidx]
      congr 1
      omega
    · have hm' : m = l.length - 1 := by omega
      have hieq : (m + (i + 1) % l.length) % l.length = i := by
        rw [hidx, hm']
        have : l.length - 1 + i + 1 = l.length + i := by omega
        rw [this, Nat.add_mod_left, Nat.mod_eq_of_lt hi]
      rw [List.getElem_append_right (by
        simp only [List.length_drop, List.length_rotate]
        omega)]
      simp only [List.length_drop, List.length_rotate]
      have h0 : m - (l.length - 1) = 0 := by omega
      simp only [h0, List.getElem_cons_zero]
      simp only [hieq]
      exact List.getElem_set_self (by simpa using hi)


lemma statsWindowInv_init : statsWindowInv [] statsInit := by
  refine ⟨rfl, by simp [statsInit], by simp [statsInit], by simp [SMOOTHING_WINDOW_SIZE]⟩

lemma set_cold_window (raws : List ℚ) (r : ℚ) (n : Nat) (hn : n < 5)
    (hlen : raws.length = n) :
    (raws ++ List.replicate (5 - n) 0).set n r
      = raws ++ r :: List.replicate (4 - n) 0 := by
  subst hlen
  rw [List.set_append_right _ _ (le_refl _), Nat.sub_self]
  rw [show 5 - raws.length = (4 - raws.length) + 1 by omega, List.replicate_succ,
    List.set_cons_zero]

lemma statsWindowInv_step {raws : List ℚ} {s : StatsState}
    (h : statsWindowInv raws s) (inp : StatsInput) :
    statsWindowInv (raws ++ [inp.cpm / CONVERSION_FACTOR])
      (updateRealTimeStats s inp) := by
  obtain ⟨hidx, hlen, hcold, hfull⟩ := h
  have hW : SMOOTHING_WINDOW_SIZE = 5 := rfl
  rw [hW] at hidx hlen hcold hfull
  have hwin : (updateRealTimeStats s inp).window
      = s.window.set s.windowIndex (inp.cpm / CONVERSION_FACTOR) := rfl
  have hwidx : (updateRealTimeStats s inp).windowIndex
      = (s.windowIndex + 1) % SMOOTHING_WINDOW_SIZE := rfl
  have hlen' : (raws ++ [inp.cpm / CONVERSION_FACTOR]).length = raws.length + 1 := by
    simp
  refine ⟨?_, ?_, ?_, ?_⟩
  · rw [hwidx, hidx, hlen', hW]
    omega
  · rw [hwin, hW]
    simpa using hlen
  · intro hklt
    rw [hlen'] at hklt
    rw [hW] at hklt
    have hcold' := hcold (by omega)
    rw [hwin, hcold', hidx, hlen', hW]
    rw [Nat.mod_eq_of_lt (by omega)]
    rw [set_cold_window raws _ raws.length (by omega) rfl]
    rw [show 5 - (raws.length + 1) = 4 - raws.length by omega]
    simp
  · intro hkge
    rw [hlen', hW] at hkge
    by_cases hkeq : raws.length + 1 = 5
    · have hk4 : raws.length = 4 := by omega
      have hcold' := hcold (by omega)
      have hidx4 : s.windowIndex = 4 := by rw [hidx, hk4]
      rw [hwin, hwidx, hidx4, hcold', hlen', hW, hk4]
      rw [show (4 + 1) % 5 = 0 from rfl, List.rotate_zero]
      rw [set_cold_window raws _ 4 (by omega) hk4]
      simp
    · have hk5 : 5 ≤ raws.length := by omega
      have hfull' := hfull hk5
      have hiw : s.windowIndex < s.window.length := by
        rw [hlen, hidx]
        exact Nat.mod_lt _ (by omega)
      rw [hwin, hwidx, hW]
      have hrot := rotate_set_succ s.window s.windowIndex
        (inp.cpm / CONVERSION_FACTOR) hiw
      rw [hlen] at hrot
      rw [hrot, hfull', hlen']
      rw [List.drop_drop]
      rw [List.drop_append_of_le_length (by omega)]
      congr 2
      omega

lemma statsWindowInv_run (s : StatsState) (raws : List ℚ) (inputs : List StatsInput)
    (h : statsWindowInv raws s) :
    statsWindowInv (raws ++ inputs.map (fun i => i.cpm / CONVERSION_FACTOR))
      (statsRun s inputs) := by
  induction inputs generalizing s raws with
  | nil => simpa [statsRun] using h
  | cons i rest ih =>
      have h1 := statsWindowInv_step h i
      have h2 := ih _ _ h1
      simpa [statsRun, List.append_assoc] using h2


lemma update_current_formula (s : StatsState) (inp : StatsInput) :
    (updateRealTimeStats s inp).currentuSvHr
      = (if 0 < (validWindowIdx (updateRealTimeStats s inp).window
            (updateRealTimeStats s inp).windowIndex).length
         then ((validWindowIdx (updateRealTimeStats s inp).window
              (updateRealTimeStats s inp).windowIndex).map
              (fun i => (updateRealTimeStats s inp).window.getD i 0)).sum
            / ((validWindowIdx (updateRealTimeStats s inp).window
              (updateRealTimeStats s inp).windowIndex).length : ℚ)
         else 0) := rfl

lemma validWindowIdx_all_pos {w : List ℚ} (hlen : w.length = SMOOTHING_WINDOW_SIZE)
    (hpos : ∀ x ∈ w, 0 < x) (idx : Nat) :
    validWindowIdx w idx = List.range SMOOTHING_WINDOW_SIZE := by
  apply List.filter_eq_self.mpr
  intro i hi
  have hi5 : i < SMOOTHING_WINDOW_SIZE := List.mem_range.mp hi
  have hiw : i < w.length := by omega
  have hp : 0 < w.getD i 0 := by
    rw [List.getD_eq_getElem _ _ hiw]
    exact hpos _ (List.getElem_mem hiw)
  rw [decide_eq_true hp, Bool.true_or]

lemma map_getD_range {w : List ℚ} (hlen : w.length = SMOOTHING_WINDOW_SIZE) :
    (List.range SMOOTHING_WINDOW_SIZE).map (fun i => w.getD i 0) = w := by
  apply List.ext_getElem
  · simp [hlen]
  · intro i h1 h2
    simp only [List.getElem_map, List.getElem_range]
    rw [List.getD_eq_getElem _ _ (by simpa using h2)]


lemma statsRun_concat (s : StatsState) (l : List StatsInput) (i : StatsInput) :
    statsRun s (l ++ [i]) = updateRealTimeStats (statsRun s l) i := by
  simp [statsRun, List.foldl_append]

lemma smoothing_positive_general (inputs : List StatsInput)
    (hne : inputs ≠ []) (h5 : 5 ≤ inputs.length)
    (hpos : ∀ i ∈ inputs, 0 < i.cpm) :
    (statsRun statsInit inputs).currentuSvHr
      = specSmoothedMean (inputs.map (fun i => i.cpm / CONVERSION_FACTOR)) := by
  have hCF : (0:ℚ) < CONVERSION_FACTOR := by norm_num [CONVERSION_FACTOR]
  have hW : SMOOTHING_WINDOW_SIZE = 5 := rfl
  obtain ⟨init, lastI, rfl⟩ : ∃ init lastI, inputs = init ++ [lastI] := by
    rcases List.eq_nil_or_concat inputs with h' | ⟨l', a, h'⟩
    · exact absurd h' hne
    · exact ⟨l', a, by simpa [List.concat_eq_append] using h'⟩
  set raws := (init ++ [lastI]).map (fun i => i.cpm / CONVERSION_FACTOR) with hraws
  have hrlen : raws.length = (init ++ [lastI]).length := by simp [hraws]
  have hinv := statsWindowInv_run statsInit [] (init ++ [lastI]) statsWindowInv_init
  rw [List.nil_append] at hinv
  rw [← hraws] at hinv
  obtain ⟨hidx, hlen, hcold, hfull⟩ := hinv
  have hfull' := hfull (by rw [hW]; omega)
  -- all final window entries are positive
  have hwpos : ∀ x ∈ (statsRun statsInit (init ++ [lastI])).window, 0 < x := by
    intro x hx
    have hx' : x ∈ (statsRun statsInit (init ++ [lastI])).window.rotate
        (statsRun statsInit (init ++ [lastI])).windowIndex := List.mem_rotate.mpr hx
    rw [hfull'] at hx'
    have hx'' : x ∈ raws := List.mem_of_mem_drop hx'
    rw [hraws] at hx''
    rcases List.mem_map.mp hx'' with ⟨i, hi, rfl⟩
    exact div_pos (hpos i hi) hCF
  -- current value via the recomputed formula of the final cycle
  rw [statsRun_concat]
  rw [update_current_formula]
  rw [← statsRun_concat]
  rw [validWindowIdx_all_pos hlen hwpos]
  rw [map_getD_range hlen]
  rw [if_pos (by rw [List.length_range, hW]; omega)]
  rw [List.length_range]
  -- window sum equals the sum of the last five raws
  have hsum : (statsRun statsInit (init ++ [lastI])).window.sum
      = (raws.drop (raws.length - SMOOTHING_WINDOW_SIZE)).sum := by
    rw [← hfull']
    exact (List.rotate_perm _ _).sum_eq.symm
  rw [hsum]
  -- and the spec mean is the same quantity
  rw [specSmoothedMean]
  have htake : raws.reverse.take SMOOTHING_WINDOW_SIZE
      = (raws.drop (raws.length - SMOOTHING_WINDOW_SIZE)).reverse :=
    List.take_reverse
  rw [htake, List.length_reverse, List.sum_reverse]
  have hdlen : (raws.drop (raws.length - SMOOTHING_WINDOW_SIZE)).length
      = SMOOTHING_WINDOW_SIZE := by
    rw [List.length_drop, hrlen, hW]
    omega
  rw [hdlen]
  rw [if_neg (by rw [hW]; omega)]


lemma smoothing_cold_general (inputs : List StatsInput)
    (hne : inputs ≠ []) (hlen4 : inputs.length ≤ 4) :
    (statsRun statsInit inputs).currentuSvHr
      = specSmoothedMean (inputs.map (fun i => i.cpm / CONVERSION_FACTOR)) := by
  have hrange : List.range 5 = [0,1,2,3,4] := rfl
  have hd0 : (decide ((0:ℚ) < 0)) = false := by decide
  rcases inputs with _ | ⟨i1, _ | ⟨i2, _ | ⟨i3, _ | ⟨i4, _ | ⟨i5, t⟩⟩⟩⟩⟩
  · exact absurd rfl hne
  · simp [statsRun, updateRealTimeStats, statsInit, validWindowIdx,
      SMOOTHING_WINDOW_SIZE, hrange, hd0, specSmoothedMean, List.filter_cons,
      List.getD_cons_succ, List.getD_cons_zero]
  · simp [statsRun, updateRealTimeStats, statsInit, validWindowIdx,
      SMOOTHING_WINDOW_SIZE, hrange, hd0, specSmoothedMean, List.filter_cons,
      List.getD_cons_succ, List.getD_cons_zero]
    ring
  · simp [statsRun, updateRealTimeStats, statsInit, validWindowIdx,
      SMOOTHING_WINDOW_SIZE, hrange, hd0, specSmoothedMean, List.filter_cons,
      List.getD_cons_succ, List.getD_cons_zero]
    ring
  · simp [statsRun, updateRealTimeStats, statsInit, validWindowIdx,
      SMOOTHING_WINDOW_SIZE, hrange, hd0, specSmoothedMean, List.filter_cons,
      List.getD_cons_succ, List.getD_cons_zero]
    ring
  · simp at hlen4

/-- C3 (amended): after every sampling cycle the published currentuSvHr
equals the arithmetic mean of the most recent min(k, 5) raw dose-rate
readings, in the two regimes the counterexample leaves intact:
unconditionally during the first four cycles from a fresh window (the mean of
the written entries, whatever their sign), and for runs of any length
whenever every reading is positive (the mean of the five most recent readings
once the window has filled).  A zero reading pushed after the window has
filled is excluded from the code's mean (see the counterexample), which is
the only deviation from the claim. -/
theorem C3_smoothing_mean_amended :
    (∀ inputs : List StatsInput, inputs ≠ [] → inputs.length ≤ 4 →
        (statsRun statsInit inputs).currentuSvHr
          = specSmoothedMean (inputs.map (fun i => i.cpm / CONVERSION_FACTOR)))
    ∧ (∀ inputs : List StatsInput, inputs ≠ [] → (∀ i ∈ inputs, 0 < i.cpm) →
        (statsRun statsInit inputs).currentuSvHr
          = specSmoothedMean (inputs.map (fun i => i.cpm / CONVERSION_FACTOR))) := by
  constructor
  · exact fun inputs hne hlen => smoothing_cold_general inputs hne hlen
  · intro inputs hne hpos
    by_cases h5 : 5 ≤ inputs.length
    · exact smoothing_positive_general inputs hne h5 hpos
    · exact smoothing_cold_general inputs hne (by omega)

/-- Witness for the amended C3 at concrete inputs: one cycle of cpm = 153.8
publishes 1 µSv/h, and six positive cycles publish the mean of the five most
recent raw readings. -/
theorem C3_smoothing_mean_amended_witness :
    (statsRun statsInit [⟨1538/10, 1, 0⟩]).currentuSvHr
      = specSmoothedMean ([(⟨1538/10, 1, 0⟩ : StatsInput)].map
          (fun i => i.cpm / CONVERSION_FACTOR))
    ∧ (statsRun statsInit (List.replicate 6 ⟨1538/10, 1, 0⟩)).currentuSvHr
      = specSmoothedMean ((List.replicate 6 (⟨1538/10, 1, 0⟩ : StatsInput)).map
          (fun i => i.cpm / CONVERSION_FACTOR)) :=
  ⟨C3_smoothing_mean_amended.1 [⟨1538/10, 1, 0⟩] (by simp) (by simp),
   C3_smoothing_mean_amended.2 (List.replicate 6 ⟨1538/10, 1, 0⟩)
     (by simp)
     (by
       intro i hi
       rw [List.eq_of_mem_replicate hi]
       norm_num)⟩

lemma getD_nonneg {l : List ℚ} (h : ∀ x ∈ l, 0 ≤ x) (i : Nat) : 0 ≤ l.getD i 0 := by
  induction l generalizing i with
  | nil => simp [List.getD]
  | cons x xs ih =>
      cases i with
      | zero => simpa using h x (by simp)
      | succ n =>
          simp only [List.getD_cons_succ]
          exact ih (fun y hy => h y (by simp [hy])) n

lemma update_window_nonneg {s : StatsState} {inp : StatsInput}
    (hw : ∀ x ∈ s.window, 0 ≤ x) (hcpm : 0 ≤ inp.cpm) :
    ∀ x ∈ (updateRealTimeStats s inp).window, 0 ≤ x := by
  intro x hx
  simp only [updateRealTimeStats] at hx
  rcases List.mem_or_eq_of_mem_set hx with hx' | rfl
  · exact hw x hx'
  · exact div_nonneg hcpm (by norm_num [CONVERSION_FACTOR])

lemma update_current_nonneg {s : StatsState} {inp : StatsInput}
    (hw : ∀ x ∈ s.window, 0 ≤ x) (hcpm : 0 ≤ inp.cpm) :
    0 ≤ (updateRealTimeStats s inp).currentuSvHr := by
  have hw' := update_window_nonneg hw hcpm
  simp only [updateRealTimeStats] at hw' ⊢
  split
  · apply div_nonneg
    · apply List.sum_nonneg
      intro v hv
      rcases List.mem_map.mp hv with ⟨i, _, rfl⟩
      exact getD_nonneg hw' i
    · positivity
  · exact le_refl 0

lemma update_cumulative_eq (s : StatsState) (inp : StatsInput) :
    (updateRealTimeStats s inp).cumulativemSv
      = s.cumulativemSv
        + (updateRealTimeStats s inp).currentuSvHr / 3600 * inp.dtSec / 1000 := rfl

lemma update_cumulative_mono {s : StatsState} {inp : StatsInput}
    (hw : ∀ x ∈ s.window, 0 ≤ x) (hcpm : 0 ≤ inp.cpm) (hdt : 0 ≤ inp.dtSec) :
    s.cumulativemSv ≤ (updateRealTimeStats s inp).cumulativemSv := by
  rw [update_cumulative_eq]
  have hc := update_current_nonneg hw hcpm
  have : 0 ≤ (updateRealTimeStats s inp).currentuSvHr / 3600 * inp.dtSec / 1000 := by
    positivity
  linarith

lemma statsRun_cumulative_mono {s : StatsState} {inps : List StatsInput}
    (hw : ∀ x ∈ s.window, 0 ≤ x)
    (hin : ∀ i ∈ inps, 0 ≤ i.cpm ∧ 0 ≤ i.dtSec) :
    s.cumulativemSv ≤ (statsRun s inps).cumulativemSv := by
  induction inps generalizing s with
  | nil => exact le_refl _
  | cons j rest ih =>
      have hj := hin j (by simp)
      refine le_trans (update_cumulative_mono hw hj.1 hj.2) ?_
      exact ih (update_window_nonneg hw hj.1) (fun i hi => hin i (by simp [hi]))

/-- C6: for every starting state whose smoothing window holds only
non-negative readings, and every sequence of cycles with non-negative cpm
readings and non-negative time deltas, cumulativemSv never decreases; and on
every single cycle it is incremented by exactly
(currentuSvHr / 3600) * dtSec / 1000 (the freshly smoothed reading). -/
theorem C6_cumulative_dose_monotone (s : StatsState) (inps : List StatsInput)
    (hw : ∀ x ∈ s.window, 0 ≤ x)
    (hin : ∀ i ∈ inps, 0 ≤ i.cpm ∧ 0 ≤ i.dtSec) :
    s.cumulativemSv ≤ (statsRun s inps).cumulativemSv
    ∧ ∀ (t : StatsState) (j : StatsInput),
        (updateRealTimeStats t j).cumulativemSv
          = t.cumulativemSv
            + (updateRealTimeStats t j).currentuSvHr / 3600 * j.dtSec / 1000 :=
  ⟨statsRun_cumulative_mono hw hin, update_cumulative_eq⟩

/-- Witness for C6: one cycle of cpm = 153.8 over one second from the initial
state does not decrease the cumulative dose. -/
theorem C6_cumulative_dose_monotone_witness :
    statsInit.cumulativemSv
      ≤ (statsRun statsInit [⟨1538/10, 1, 1000⟩]).cumulativemSv :=
  (C6_cumulative_dose_monotone statsInit [⟨1538/10, 1, 1000⟩]
    (by intro x hx; simp [statsInit] at hx; simp [hx])
    (by intro i hi; simp at hi; subst hi; constructor <;> norm_num)).1

lemma update_max_eq (s : StatsState) (inp : StatsInput) :
    (updateRealTimeStats s inp).maxuSvHr
      = (if s.maxuSvHr < (updateRealTimeStats s inp).currentuSvHr
            ∧ (updateRealTimeStats s inp).currentuSvHr < 100
         then (updateRealTimeStats s inp).currentuSvHr else s.maxuSvHr) := rfl

lemma update_max_mono (s : StatsState) (inp : StatsInput) :
    s.maxuSvHr ≤ (updateRealTimeStats s inp).maxuSvHr := by
  rw [update_max_eq]
  split
  · next h => exact le_of_lt h.1
  · exact le_refl _

lemma update_max_lt_100 {s : StatsState} (inp : StatsInput)
    (h : s.maxuSvHr < 100) : (updateRealTimeStats s inp).maxuSvHr < 100 := by
  rw [update_max_eq]
  split
  · next h' => exact h'.2
  · exact h

lemma statsRun_max_mono (s : StatsState) (inps : List StatsInput) :
    s.maxuSvHr ≤ (statsRun s inps).maxuSvHr := by
  induction inps generalizing s with
  | nil => exact le_refl _
  | cons j rest ih => exact le_trans (update_max_mono s j) (ih _)

lemma statsRun_max_lt_100 {s : StatsState} (inps : List StatsInput)
    (h : s.maxuSvHr < 100) : (statsRun s inps).maxuSvHr < 100 := by
  induction inps generalizing s with
  | nil => exact h
  | cons j rest ih => exact ih (update_max_lt_100 j h)

/-- C10: maxuSvHr starts at 0, stays non-negative and strictly below 100 on
every run from the initial state, never decreases as a run is extended, is
left unchanged by any cycle whose smoothed reading is 100 or more, while
updateLabels still publishes currentuSvHr itself unclamped. -/
theorem C10_max_bounded (inps more : List StatsInput) :
    statsInit.maxuSvHr = 0
    ∧ 0 ≤ (statsRun statsInit inps).maxuSvHr
    ∧ (statsRun statsInit inps).maxuSvHr < 100
    ∧ (statsRun statsInit inps).maxuSvHr
        ≤ (statsRun statsInit (inps ++ more)).maxuSvHr
    ∧ (∀ (t : StatsState) (j : StatsInput),
        100 ≤ (updateRealTimeStats t j).currentuSvHr →
        (updateRealTimeStats t j).maxuSvHr = t.maxuSvHr)
    ∧ (∀ t : StatsState, (updateLabels t).1 = t.currentuSvHr) := by
  refine ⟨rfl, ?_, statsRun_max_lt_100 inps (by norm_num [statsInit]), ?_, ?_, fun t => rfl⟩
  · have := statsRun_max_mono statsInit inps
    simpa [statsInit] using this
  · have : statsRun statsInit (inps ++ more) = statsRun (statsRun statsInit inps) more := by
      simp [statsRun, List.foldl_append]
    rw [this]
    exact statsRun_max_mono _ more
  · intro t j h
    rw [update_max_eq, if_neg]
    rintro ⟨-, hlt⟩
    linarith

/-- Witness for C10: a single cycle of cpm = 153800 from the initial state
yields a smoothed reading of 1000 µSv/h (at least 100), and the maximum stays
at its previous value 0. -/
theorem C10_max_bounded_witness :
    (updateRealTimeStats statsInit ⟨153800, 1, 0⟩).maxuSvHr = statsInit.maxuSvHr :=
  (C10_max_bounded [] []).2.2.2.2.1 statsInit ⟨153800, 1, 0⟩ (by
    have h1 : (153800:ℚ) / CONVERSION_FACTOR = 1000 := by norm_num [CONVERSION_FACTOR]
    have hrange : List.range 5 = [0,1,2,3,4] := rfl
    have hd0 : (decide ((0:ℚ) < 0)) = false := by decide
    have hd1 : (decide ((0:ℚ) < 1000)) = true := by decide
    simp [updateRealTimeStats, statsInit, validWindowIdx, SMOOTHING_WINDOW_SIZE,
      hrange, hd0, hd1, h1, List.filter_cons, List.getD_cons_succ,
      List.getD_cons_zero]
    norm_num)


lemma take_set_succ {α : Type} (l : List α) (n : ℕ) (a : α) (h : n < l.length) :
    (l.set n a).take (n+1) = l.take n ++ [a] := by
  rw [List.take_succ, List.set_take]
  rw [List.set_eq_of_length_le (by simp)]
  rw [List.getElem?_set_self (by simpa using h)]
  simp

lemma chartInit_inv (C : Nat) : ChartInv C [] (chartInit C) := by
  refine ⟨by simp [chartInit], by simp [chartInit], by simp [chartInit]⟩

lemma chartStep_inv {C : Nat} {W : ℚ} (hC : 0 < C) {hist : List ℚ} {s : ChartState}
    (h : ChartInv C hist s) (inp : ℚ × ℚ) :
    ChartInv C (hist ++ (chartStep C W s inp).2.toList) (chartStep C W s inp).1 := by
  obtain ⟨hlen, hidx, hpfx⟩ := h
  simp only [chartStep]
  split
  · generalize (s.accumulatedCpm + inp.1 * inp.2) / (s.elapsedSec + inp.2) / CONVERSION_FACTOR = v
    by_cases hfull : s.index < C
    · have hh : hist.length < C := by
        by_contra h'
        push_neg at h'
        rw [hidx, Nat.min_eq_right h'] at hfull
        omega
      have hidx' : s.index = hist.length := by
        rw [hidx, Nat.min_eq_left (le_of_lt hh)]
      rw [if_pos hfull]
      refine ⟨by simpa using hlen, ?_, ?_⟩
      · simp only [Option.toList_some, List.length_append, List.length_cons,
          List.length_nil]
        omega
      · simp only [Option.toList_some]
        rw [hidx', take_set_succ _ _ _ (by rw [hlen, ← hidx']; exact hfull), ← hidx', hpfx]
        have h1 : hist.length - C = 0 := by omega
        have h2 : (hist ++ [v]).length - C = 0 := by simp; omega
        rw [h1, h2, List.drop_zero, List.drop_zero]
    · have hCle : C ≤ s.index := Nat.le_of_not_lt hfull
      have hsC : s.index = C := by
        have : min hist.length C ≤ C := Nat.min_le_right _ _
        omega
      have hhC : C ≤ hist.length := by
        by_contra h'
        push_neg at h'
        rw [hidx, Nat.min_eq_left (le_of_lt h')] at hsC
        omega
      have htake : s.buffer.take C = s.buffer := by
        rw [← hlen]
        exact List.take_length _
      have hbuf : s.buffer = hist.drop (hist.length - C) := by
        have h' := hpfx
        rw [hsC] at h'
        rwa [htake] at h'
      rw [if_neg hfull]
      refine ⟨?_, ?_, ?_⟩
      · simp only [List.length_append, List.length_drop, List.length_cons,
          List.length_nil, hlen]
        omega
      · simp only [Option.toList_some, List.length_append, List.length_cons,
          List.length_nil]
        omega
      · simp only [Option.toList_some]
        have hlen2 : (s.buffer.drop 1 ++ [v]).length = C := by
          simp only [List.length_append, List.length_drop, List.length_cons,
            List.length_nil, hlen]
          omega
        rw [hsC, List.take_of_length_le (le_of_eq hlen2)]
        have h3 : (hist ++ [v]).length - C = (hist.length - C) + 1 := by
          simp only [List.length_append, List.length_cons, List.length_nil]
          omega
        rw [h3, List.drop_append_of_le_length (by omega)]
        rw [hbuf, List.drop_drop]
  · simpa using ⟨hlen, hidx, hpfx⟩

lemma chartRun_inv {C : Nat} {W : ℚ} (hC : 0 < C) {hist : List ℚ} {s : ChartState}
    (h : ChartInv C hist s) (samples : List (ℚ × ℚ)) :
    ChartInv C (hist ++ (chartRun C W s samples).2) (chartRun C W s samples).1 := by
  induction samples generalizing s hist with
  | nil => simpa [chartRun] using h
  | cons inp rest ih =>
      simp only [chartRun]
      have h1 := chartStep_inv (W := W) hC h inp
      have h2 := ih h1
      rwa [List.append_assoc] at h2


/-- C4: for both interval histories (window 180 s / capacity 20 and window
3600 s / capacity 24) and every sample sequence, the write index equals
min(#completed windows, capacity) and never exceeds the capacity, and the
populated prefix of the buffer holds exactly the most recent `capacity`
committed bucket values in chronological order, oldest first — so after
exactly C commits the buffer holds all C values, and after C+1 commits the
oldest has been evicted by the shift-left and the newest appended at the
end. -/
theorem C4_interval_history_fifo (samples : List (ℚ × ℚ)) :
    (let r := chartRun CHART1_SEGMENTS CHART1_INTERVAL_SECONDS
        (chartInit CHART1_SEGMENTS) samples
     r.1.index = min r.2.length CHART1_SEGMENTS
       ∧ r.1.index ≤ CHART1_SEGMENTS
       ∧ r.1.buffer.take r.1.index = r.2.drop (r.2.length - CHART1_SEGMENTS))
    ∧ (let r := chartRun CHART3_SEGMENTS CHART3_INTERVAL_SECONDS
        (chartInit CHART3_SEGMENTS) samples
     r.1.index = min r.2.length CHART3_SEGMENTS
       ∧ r.1.index ≤ CHART3_SEGMENTS
       ∧ r.1.buffer.take r.1.index = r.2.drop (r.2.length - CHART3_SEGMENTS)) := by
  constructor
  · have h := chartRun_inv (W := CHART1_INTERVAL_SECONDS)
      (by norm_num [CHART1_SEGMENTS]) (chartInit_inv CHART1_SEGMENTS) samples
    simp only [List.nil_append] at h
    exact ⟨h.2.1, by rw [h.2.1]; exact Nat.min_le_right _ _, h.2.2⟩
  · have h := chartRun_inv (W := CHART3_INTERVAL_SECONDS)
      (by norm_num [CHART3_SEGMENTS]) (chartInit_inv CHART3_SEGMENTS) samples
    simp only [List.nil_append] at h
    exact ⟨h.2.1, by rw [h.2.1]; exact Nat.min_le_right _ _, h.2.2⟩


lemma chartRun_append (C : Nat) (W : ℚ) (s : ChartState) (l1 l2 : List (ℚ × ℚ)) :
    chartRun C W s (l1 ++ l2)
      = ((chartRun C W (chartRun C W s l1).1 l2).1,
         (chartRun C W s l1).2 ++ (chartRun C W (chartRun C W s l1).1 l2).2) := by
  induction l1 generalizing s with
  | nil => simp [chartRun]
  | cons i rest ih => simp [chartRun, ih, List.append_assoc]

lemma chartRun_no_commit {C : Nat} {W : ℚ} {s : ChartState} {samples : List (ℚ × ℚ)}
    (h : ∀ k, k ≤ samples.length → s.elapsedSec + sumDt (samples.take k) < W) :
    (chartRun C W s samples).1.buffer = s.buffer
    ∧ (chartRun C W s samples).1.index = s.index
    ∧ (chartRun C W s samples).1.maxValue = s.maxValue
    ∧ (chartRun C W s samples).1.accumulatedCpm = s.accumulatedCpm + weightedSum samples
    ∧ (chartRun C W s samples).1.elapsedSec = s.elapsedSec + sumDt samples
    ∧ (chartRun C W s samples).2 = [] := by
  induction samples generalizing s with
  | nil => simp [chartRun, sumDt, weightedSum]
  | cons i rest ih =>
      have h1 : s.elapsedSec + i.2 < W := by
        have := h 1 (by simp)
        simpa [sumDt] using this
      have hstep : chartStep C W s i
          = ({ s with
                accumulatedCpm := s.accumulatedCpm + i.1 * i.2
                elapsedSec := s.elapsedSec + i.2 }, none) := by
        simp only [chartStep]
        rw [if_neg (not_le.mpr h1)]
      have hrec := ih (s := { s with
                accumulatedCpm := s.accumulatedCpm + i.1 * i.2
                elapsedSec := s.elapsedSec + i.2 }) (fun k hk => by
        have := h (k + 1) (by simpa using hk)
        simpa [sumDt, add_assoc] using this)
      simp only [chartRun, hstep]
      refine ⟨hrec.1, hrec.2.1, hrec.2.2.1, ?_, ?_, by simpa using hrec.2.2.2.2.2⟩
      · rw [hrec.2.2.2.1]
        simp [weightedSum]
        ring
      · rw [hrec.2.2.2.2.1]
        simp [sumDt]
        ring


/-- C5: starting from reset accumulators, if no proper prefix of the sample
sequence reaches the window length and the final sample does, then exactly
one bucket is committed, its value is (sum of cpm_i * dt_i) / (sum of dt_i)
divided by CONVERSION_FACTOR over exactly the accumulated samples, and both
accumulators are 0 again afterwards. -/
theorem C5_bucket_value (C : Nat) (W : ℚ) (s : ChartState)
    (body : List (ℚ × ℚ)) (c d : ℚ)
    (hacc : s.accumulatedCpm = 0) (hel : s.elapsedSec = 0)
    (hbody : ∀ k, k ≤ body.length → sumDt (body.take k) < W)
    (hfin : W ≤ sumDt body + d) :
    (chartRun C W s (body ++ [(c, d)])).2
        = [weightedSum (body ++ [(c, d)]) / sumDt (body ++ [(c, d)]) / CONVERSION_FACTOR]
    ∧ (chartRun C W s (body ++ [(c, d)])).1.accumulatedCpm = 0
    ∧ (chartRun C W s (body ++ [(c, d)])).1.elapsedSec = 0 := by
  have hnc := @chartRun_no_commit C W s body
    (fun k hk => by rw [hel]; simpa using hbody k hk)
  rw [chartRun_append]
  set s1 := (chartRun C W s body).1 with hs1
  have hacc1 : s1.accumulatedCpm = weightedSum body := by
    rw [hnc.2.2.2.1, hacc, zero_add]
  have hel1 : s1.elapsedSec = sumDt body := by
    rw [hnc.2.2.2.2.1, hel, zero_add]
  have hstep : W ≤ s1.elapsedSec + d := by rw [hel1]; exact hfin
  have hws : weightedSum (body ++ [(c, d)]) = weightedSum body + c * d := by
    simp [weightedSum]
  have hds : sumDt (body ++ [(c, d)]) = sumDt body + d := by
    simp [sumDt]
  refine ⟨?_, ?_, ?_⟩
  · rw [hnc.2.2.2.2.2]
    simp only [chartRun, chartStep, List.nil_append]
    rw [if_pos hstep]
    simp only [Option.toList_some, List.append_nil, List.nil_append]
    rw [hacc1, hel1, hws, hds]
  · simp only [chartRun, chartStep]
    rw [if_pos hstep]
  · simp only [chartRun, chartStep]
    rw [if_pos hstep]


lemma foldl_strictmax_eq (l : List ℚ) (a : ℚ) :
    l.foldl (fun m x => if m < x then x else m) a = l.foldl max a := by
  have hf : (fun (m x : ℚ) => if m < x then x else m) = max := by
    funext m x
    rcases lt_or_ge m x with h | h
    · rw [if_pos h, max_eq_right (le_of_lt h)]
    · rw [if_neg (not_lt.mpr h), max_eq_left h]
  rw [hf]

lemma foldl_max_init (l : List ℚ) (a b : ℚ) :
    l.foldl max (max a b) = max a (l.foldl max b) := by
  induction l generalizing b with
  | nil => simp
  | cons x xs ih =>
      rw [List.foldl_cons, max_assoc, ih, ← List.foldl_cons]

lemma le_foldl_max (l : List ℚ) (a : ℚ) : a ≤ l.foldl max a := by
  induction l generalizing a with
  | nil => simp
  | cons x xs ih => exact le_trans (le_max_left a x) (ih _)

lemma maxV_eq (pop : List ℚ) :
    (if (((⌈(pop.foldl (fun m x => if m < x then x else m) 1) * (6/5)⌉ : ℤ) : ℚ) < 1)
      then (1:ℚ)
      else ((⌈(pop.foldl (fun m x => if m < x then x else m) 1) * (6/5)⌉ : ℤ) : ℚ))
      = ((⌈(max 1 (pop.foldl max 0)) * (6/5)⌉ : ℤ) : ℚ) := by
  have hbase : pop.foldl (fun m x => if m < x then x else m) 1
      = max 1 (pop.foldl max 0) := by
    rw [foldl_strictmax_eq]
    conv_lhs => rw [show (1:ℚ) = max 1 0 by norm_num]
    rw [foldl_max_init]
  rw [hbase, if_neg]
  push_neg
  have h1 : (1:ℚ) ≤ max 1 (pop.foldl max 0) := le_max_left _ _
  have h2 : (1:ℚ) < max 1 (pop.foldl max 0) * (6/5) := by nlinarith
  have h3 : (1:ℤ) < ⌈max 1 (pop.foldl max 0) * (6/5)⌉ := by
    rw [Int.lt_ceil]
    exact_mod_cast h2
  have h4 : (1:ℤ) ≤ ⌈max 1 (pop.foldl max 0) * (6/5)⌉ := le_of_lt h3
  exact_mod_cast h4

lemma maxV_ge_two (pop : List ℚ) :
    (2:ℚ) ≤ (if (((⌈(pop.foldl (fun m x => if m < x then x else m) 1) * (6/5)⌉ : ℤ) : ℚ) < 1)
      then (1:ℚ)
      else ((⌈(pop.foldl (fun m x => if m < x then x else m) 1) * (6/5)⌉ : ℤ) : ℚ)) := by
  rw [maxV_eq]
  have h1 : (1:ℚ) ≤ max 1 (pop.foldl max 0) := le_max_left _ _
  have h2 : (1:ℚ) < max 1 (pop.foldl max 0) * (6/5) := by nlinarith
  have h3 : (1:ℤ) < ⌈max 1 (pop.foldl max 0) * (6/5)⌉ := by
    rw [Int.lt_ceil]
    exact_mod_cast h2
  have h4 : (2:ℤ) ≤ ⌈max 1 (pop.foldl max 0) * (6/5)⌉ := h3
  exact_mod_cast h4

/-- C9 (amended): after every bucket commit the dynamic display maximum
equals ceil(1.2 * max(1.0, maximum across the populated buckets)) — the 1.0
floor is applied to the bucket maximum before the headroom multiplication,
not after — and it is always at least 2.0, so it never equals 1.0 and the
trailing floor-to-1.0 clamp in the code is dead. -/
theorem C9_chart_max_amended (C : Nat) (W : ℚ) (s : ChartState) (inp : ℚ × ℚ)
    (hcommit : W ≤ s.elapsedSec + inp.2) :
    (chartStep C W s inp).1.maxValue
      = ((⌈(max 1 (((chartStep C W s inp).1.buffer.take
            (chartStep C W s inp).1.index).foldl max 0)) * (6/5)⌉ : ℤ) : ℚ)
    ∧ 2 ≤ (chartStep C W s inp).1.maxValue := by
  simp only [chartStep]
  rw [if_pos hcommit]
  constructor
  · have h := maxV_eq (((if s.index < C then
        (s.buffer.set s.index
          ((s.accumulatedCpm + inp.1 * inp.2) / (s.elapsedSec + inp.2) / CONVERSION_FACTOR),
          s.index + 1)
      else
        (s.buffer.drop 1 ++
          [(s.accumulatedCpm + inp.1 * inp.2) / (s.elapsedSec + inp.2) / CONVERSION_FACTOR],
          s.index)).1.take
      (if s.index < C then
        (s.buffer.set s.index
          ((s.accumulatedCpm + inp.1 * inp.2) / (s.elapsedSec + inp.2) / CONVERSION_FACTOR),
          s.index + 1)
      else
        (s.buffer.drop 1 ++
          [(s.accumulatedCpm + inp.1 * inp.2) / (s.elapsedSec + inp.2) / CONVERSION_FACTOR],
          s.index)).2))
    exact h
  · exact maxV_ge_two _


/-- C9 (counterexample): commit a single bucket of 0.5 µSv/h on the 3-minute
chart.  The claimed display maximum is ceil(0.5 * 1.2) = ceil(0.6) = 1.0,
but the code seeds its maximum scan with 1.0 before applying the headroom
factor, producing ceil(1.0 * 1.2) = 2.0. -/
theorem C9_display_max_counterexample :
    (chartStep CHART1_SEGMENTS CHART1_INTERVAL_SECONDS (chartInit CHART1_SEGMENTS)
        ((769/10 : ℚ), 180)).1.maxValue = 2
    ∧ specChartMax
        ((chartStep CHART1_SEGMENTS CHART1_INTERVAL_SECONDS (chartInit CHART1_SEGMENTS)
          ((769/10 : ℚ), 180)).1.buffer.take
         (chartStep CHART1_SEGMENTS CHART1_INTERVAL_SECONDS (chartInit CHART1_SEGMENTS)
          ((769/10 : ℚ), 180)).1.index) = 1
    ∧ (2:ℚ) ≠ 1 := by
  have hval : ((0:ℚ) + (769/10) * 180) / (0 + 180) / CONVERSION_FACTOR = 1/2 := by
    norm_num [CONVERSION_FACTOR]
  have hceil1 : ⌈((1:ℚ)) * (6/5)⌉ = 2 := by
    rw [show ((1:ℚ)) * (6/5) = 6/5 by ring, Int.ceil_eq_iff]
    constructor <;> norm_num
  have hceil2 : ⌈(max (0:ℚ) (1/2)) * (6/5)⌉ = 1 := by
    rw [show (max (0:ℚ) (1/2)) * (6/5) = 3/5 by rw [max_eq_right] <;> norm_num,
      Int.ceil_eq_iff]
    constructor <;> norm_num
  have hrep : (List.replicate 20 (0:ℚ)).set 0 (1/2)
      = (1/2 : ℚ) :: List.replicate 19 0 := by
    rw [show (20:Nat) = 19 + 1 from rfl, List.replicate_succ, List.set_cons_zero]
  refine ⟨?_, ?_, by norm_num⟩
  · simp only [chartStep, chartInit, CHART1_SEGMENTS, CHART1_INTERVAL_SECONDS]
    rw [if_pos (show (180:ℚ) ≤ 0 + 180 by norm_num)]
    rw [if_pos (show (0:Nat) < 20 by norm_num)]
    simp only [hval, hrep]
    simp only [List.take_succ_cons, List.take_zero, List.foldl_cons, List.foldl_nil,
      Nat.zero_add]
    rw [if_neg (show ¬ ((1:ℚ)) < 1/2 by norm_num)]
    rw [hceil1]
    norm_num
  · simp only [chartStep, chartInit, CHART1_SEGMENTS, CHART1_INTERVAL_SECONDS]
    rw [if_pos (show (180:ℚ) ≤ 0 + 180 by norm_num)]
    rw [if_pos (show (0:Nat) < 20 by norm_num)]
    simp only [hval, hrep]
    simp only [List.take_succ_cons, List.take_zero, List.foldl_cons, List.foldl_nil,
      Nat.zero_add, specChartMax]
    rw [hceil2]
    norm_num


lemma jsonChartArray_eq_rotate (C : Nat) (buffer : List ℚ) (index : Nat)
    (hC : 0 < C) (hlen : buffer.length = C) :
    jsonChartArray C buffer index = buffer.rotate index := by
  apply List.ext_getElem
  · simp [jsonChartArray, List.length_rotate, hlen]
  · intro i h1 h2
    simp only [jsonChartArray, List.getElem_map, List.getElem_range]
    rw [List.getElem_rotate]
    have hmod : (index + i) % C < buffer.length := by
      rw [hlen]
      exact Nat.mod_lt _ hC
    rw [List.getD_eq_getElem _ _ hmod]
    congr 1
    rw [hlen, Nat.add_comm]

/-- C8 (counterexample): after a single committed bucket of value 5 on the
3-minute chart the buffer is [5, 0, ..., 0] with write index 1, and the JSON
hourly array starts reading at slot 1, producing nineteen never-written zero
slots before the single populated bucket — not an array starting from the
oldest populated bucket. -/
theorem C8_json_order_counterexample :
    jsonChartArray CHART1_SEGMENTS
        (chartStep CHART1_SEGMENTS CHART1_INTERVAL_SECONDS (chartInit CHART1_SEGMENTS)
          ((769 : ℚ), 180)).1.buffer
        (chartStep CHART1_SEGMENTS CHART1_INTERVAL_SECONDS (chartInit CHART1_SEGMENTS)
          ((769 : ℚ), 180)).1.index
      ≠ specJsonArray
        (chartStep CHART1_SEGMENTS CHART1_INTERVAL_SECONDS (chartInit CHART1_SEGMENTS)
          ((769 : ℚ), 180)).1.buffer
        (chartStep CHART1_SEGMENTS CHART1_INTERVAL_SECONDS (chartInit CHART1_SEGMENTS)
          ((769 : ℚ), 180)).1.index := by
  have hval : ((0:ℚ) + 769 * 180) / (0 + 180) / CONVERSION_FACTOR = 5 := by
    norm_num [CONVERSION_FACTOR]
  have hrep : (List.replicate 20 (0:ℚ)).set 0 5 = (5 : ℚ) :: List.replicate 19 0 := by
    rw [show (20:Nat) = 19 + 1 from rfl, List.replicate_succ, List.set_cons_zero]
  have hbuf : (chartStep CHART1_SEGMENTS CHART1_INTERVAL_SECONDS (chartInit CHART1_SEGMENTS)
      ((769 : ℚ), 180)).1.buffer = (5 : ℚ) :: List.replicate 19 0 := by
    simp only [chartStep, chartInit, CHART1_SEGMENTS, CHART1_INTERVAL_SECONDS]
    rw [if_pos (show (180:ℚ) ≤ 0 + 180 by norm_num)]
    rw [if_pos (show (0:Nat) < 20 by norm_num)]
    simp only [hval, hrep]
  have hidx : (chartStep CHART1_SEGMENTS CHART1_INTERVAL_SECONDS (chartInit CHART1_SEGMENTS)
      ((769 : ℚ), 180)).1.index = 1 := by
    simp only [chartStep, chartInit, CHART1_SEGMENTS, CHART1_INTERVAL_SECONDS]
    rw [if_pos (show (180:ℚ) ≤ 0 + 180 by norm_num)]
    rw [if_pos (show (0:Nat) < 20 by norm_num)]
  rw [hbuf, hidx]
  intro h
  have h0 := congrArg (fun l => l.getD 0 99) h
  simp only [jsonChartArray, specJsonArray, CHART1_SEGMENTS] at h0
  rw [List.getD_eq_getElem _ _ (by simp)] at h0
  simp [List.getD] at h0


/-- C8 (amended): the JSON arrays are the chart buffer rotated left by the
write index.  Once the buffer has completed at least `capacity` windows the
write index is pinned at the capacity, the rotation is the identity, and the
array is exactly the most recent `capacity` bucket values oldest first; in a
partially-filled state the never-written zero slots come first instead. -/
theorem C8_json_order_amended :
    (∀ (C : Nat) (buffer : List ℚ) (index : Nat), 0 < C → buffer.length = C →
        jsonChartArray C buffer index
          = buffer.drop (index % C) ++ buffer.take (index % C))
    ∧ (∀ samples : List (ℚ × ℚ),
        CHART1_SEGMENTS ≤ (chartRun CHART1_SEGMENTS CHART1_INTERVAL_SECONDS
            (chartInit CHART1_SEGMENTS) samples).2.length →
        jsonChartArray CHART1_SEGMENTS
            (chartRun CHART1_SEGMENTS CHART1_INTERVAL_SECONDS
              (chartInit CHART1_SEGMENTS) samples).1.buffer
            (chartRun CHART1_SEGMENTS CHART1_INTERVAL_SECONDS
              (chartInit CHART1_SEGMENTS) samples).1.index
          = (chartRun CHART1_SEGMENTS CHART1_INTERVAL_SECONDS
              (chartInit CHART1_SEGMENTS) samples).2.drop
              ((chartRun CHART1_SEGMENTS CHART1_INTERVAL_SECONDS
                (chartInit CHART1_SEGMENTS) samples).2.length - CHART1_SEGMENTS)) := by
  have hrot : ∀ (C : Nat) (buffer : List ℚ) (index : Nat), 0 < C → buffer.length = C →
      jsonChartArray C buffer index
        = buffer.drop (index % C) ++ buffer.take (index % C) := by
    intro C buffer index hC hlen
    rw [jsonChartArray_eq_rotate C buffer index hC hlen,
      List.rotate_eq_drop_append_take_mod, hlen]
  refine ⟨hrot, ?_⟩
  intro samples hle
  have h := chartRun_inv (W := CHART1_INTERVAL_SECONDS)
    (by norm_num [CHART1_SEGMENTS]) (chartInit_inv CHART1_SEGMENTS) samples
  simp only [List.nil_append] at h
  obtain ⟨hlen, hidx, hpfx⟩ := h
  have hidxC : (chartRun CHART1_SEGMENTS CHART1_INTERVAL_SECONDS
      (chartInit CHART1_SEGMENTS) samples).1.index = CHART1_SEGMENTS := by
    rw [hidx]
    omega
  have hbufeq : (chartRun CHART1_SEGMENTS CHART1_INTERVAL_SECONDS
      (chartInit CHART1_SEGMENTS) samples).1.buffer
      = (chartRun CHART1_SEGMENTS CHART1_INTERVAL_SECONDS
          (chartInit CHART1_SEGMENTS) samples).2.drop
          ((chartRun CHART1_SEGMENTS CHART1_INTERVAL_SECONDS
            (chartInit CHART1_SEGMENTS) samples).2.length - CHART1_SEGMENTS) := by
    rw [hidxC] at hpfx
    rw [List.take_of_length_le (le_of_eq hlen)] at hpfx
    exact hpfx
  rw [hrot _ _ _ (by norm_num [CHART1_SEGMENTS]) hlen, hidxC]
  simp only [Nat.mod_self, List.drop_zero, List.take_zero, List.append_nil]
  exact hbufeq


lemma checkAlarms_cases (s : AlarmState) (i : AlarmInput) :
    ((checkAlarms s i).2 = none
       ∧ (checkAlarms s i).1.alarmToneToggle = s.alarmToneToggle
       ∧ (checkAlarms s i).1.lastAlarmMillis = s.lastAlarmMillis)
    ∨ ((checkAlarms s i).2
          = some (i.now, if s.alarmToneToggle then ALARM_FREQ1 else ALARM_FREQ2)
       ∧ alarmSep (virtualEvent s)
           (i.now, if s.alarmToneToggle then ALARM_FREQ1 else ALARM_FREQ2)
       ∧ virtualEvent (checkAlarms s i).1
          = (i.now, if s.alarmToneToggle then ALARM_FREQ1 else ALARM_FREQ2)) := by
  simp only [checkAlarms]
  split
  · left
    exact ⟨rfl, rfl, rfl⟩
  · split
    · split
      · next hcool =>
          right
          refine ⟨rfl, ⟨?_, ?_⟩, ?_⟩
          · simp only [virtualEvent]
            simp only [ALARM_TONE_DURATION, ALARM_PAUSE_DURATION] at hcool ⊢
            omega
          · simp only [virtualEvent]
            cases s.alarmToneToggle <;>
              simp [ALARM_FREQ1, ALARM_FREQ2]
          · cases htog : s.alarmToneToggle <;>
              simp [virtualEvent, htog]
      · left
        exact ⟨rfl, rfl, rfl⟩
    · left
      exact ⟨rfl, rfl, rfl⟩

lemma alarmRun_chain (s : AlarmState) (inputs : List AlarmInput) :
    List.Chain' alarmSep (virtualEvent s :: (alarmRun s inputs).2)
    ∧ virtualEvent (alarmRun s inputs).1
        = (alarmRun s inputs).2.getLastD (virtualEvent s) := by
  induction inputs generalizing s with
  | nil => simp [alarmRun]
  | cons i rest ih =>
      simp only [alarmRun]
      rcases checkAlarms_cases s i with ⟨hnone, htog, hlast⟩ | ⟨hsome, hsep, hvirt⟩
      · rw [hnone]
        simp only [Option.toList_none, List.nil_append]
        have h2 := ih (checkAlarms s i).1
        have hv : virtualEvent (checkAlarms s i).1 = virtualEvent s := by
          simp [virtualEvent, htog, hlast]
        rw [hv] at h2
        exact h2
      · rw [hsome]
        simp only [Option.toList_some, List.cons_append, List.nil_append]
        have h2 := ih (checkAlarms s i).1
        rw [hvirt] at h2
        refine ⟨?_, ?_⟩
        · rw [List.chain'_cons]
          exact ⟨hsep, h2.1⟩
        · rw [List.getLastD_cons]
          exact h2.2


/-- C7: when alarms are disabled checkAlarms stops the tone and never starts
one; tone-start events of any run are separated by at least
ALARM_TONE_DURATION + ALARM_PAUSE_DURATION = 250 ms and alternate between
the two frequencies; when enabled but the trigger condition fails the tone
is stopped unconditionally; and when enabled with the condition holding and
the retrigger interval elapsed a tone-start occurs at the current time with
the toggle-selected frequency. -/
theorem C7_alarm_rate_limit :
    (∀ (t : AlarmState) (i : AlarmInput), i.alarmDisabled = true →
        (checkAlarms t i).1.toneOn = false ∧ (checkAlarms t i).2 = none)
    ∧ (∀ (s : AlarmState) (inputs : List AlarmInput),
        List.Chain' alarmSep (alarmRun s inputs).2)
    ∧ (∀ (t : AlarmState) (i : AlarmInput), i.alarmDisabled = false →
        ¬(i.currentThreshold < i.currentuSvHr ∨ i.cumulativeThreshold < i.cumulativemSv) →
        (checkAlarms t i).1.toneOn = false ∧ (checkAlarms t i).2 = none)
    ∧ (∀ (t : AlarmState) (i : AlarmInput), i.alarmDisabled = false →
        (i.currentThreshold < i.currentuSvHr ∨ i.cumulativeThreshold < i.cumulativemSv) →
        ALARM_TONE_DURATION + ALARM_PAUSE_DURATION ≤ i.now - t.lastAlarmMillis →
        (checkAlarms t i).2
            = some (i.now, if t.alarmToneToggle then ALARM_FREQ1 else ALARM_FREQ2)
          ∧ (checkAlarms t i).1.toneOn = true
          ∧ (checkAlarms t i).1.lastAlarmMillis = i.now) := by
  refine ⟨?_, ?_, ?_, ?_⟩
  · intro t i hdis
    simp only [checkAlarms]
    rw [if_pos hdis]
    exact ⟨rfl, rfl⟩
  · intro s inputs
    exact ((alarmRun_chain s inputs).1).tail
  · intro t i hdis hcond
    simp only [checkAlarms]
    rw [if_neg (by simp [hdis]), if_neg hcond]
    exact ⟨rfl, rfl⟩
  · intro t i hdis hcond hcool
    simp only [checkAlarms]
    rw [if_neg (by simp [hdis]), if_pos hcond, if_pos hcool]
    exact ⟨rfl, rfl, rfl⟩

/-- Witness for C7 at concrete inputs: a disabled call keeps the tone off,
and an enabled call with reading 6 over threshold 5 at time 300 ms starts a
1500 Hz tone. -/
theorem C7_alarm_rate_limit_witness :
    (checkAlarms alarmInit
        { now := 0, alarmDisabled := true, currentuSvHr := 6, cumulativemSv := 0,
          currentThreshold := 5, cumulativeThreshold := 1 }).1.toneOn = false
    ∧ (checkAlarms alarmInit
        { now := 300, alarmDisabled := false, currentuSvHr := 6, cumulativemSv := 0,
          currentThreshold := 5, cumulativeThreshold := 1 }).2
        = some (300, ALARM_FREQ2) := by
  constructor
  · exact (C7_alarm_rate_limit.1 alarmInit _ rfl).1
  · have h := C7_alarm_rate_limit.2.2.2 alarmInit
      { now := 300, alarmDisabled := false, currentuSvHr := 6, cumulativemSv := 0,
        currentThreshold := 5, cumulativeThreshold := 1 }
      rfl (Or.inl (by norm_num))
      (by simp [alarmInit, ALARM_TONE_DURATION, ALARM_PAUSE_DURATION])
    simpa [alarmInit] using h.1


/-- Witness for C5 at a concrete input: one 180-second sample at 769 CPM on
the 3-minute chart commits exactly one bucket of the time-weighted average
over that sample. -/
theorem C5_bucket_value_witness :
    (chartRun CHART1_SEGMENTS CHART1_INTERVAL_SECONDS (chartInit CHART1_SEGMENTS)
        [((769 : ℚ), 180)]).2
      = [weightedSum [((769 : ℚ), 180)] / sumDt [((769 : ℚ), 180)] / CONVERSION_FACTOR]
    ∧ (chartRun CHART1_SEGMENTS CHART1_INTERVAL_SECONDS (chartInit CHART1_SEGMENTS)
        [((769 : ℚ), 180)]).1.accumulatedCpm = 0
    ∧ (chartRun CHART1_SEGMENTS CHART1_INTERVAL_SECONDS (chartInit CHART1_SEGMENTS)
        [((769 : ℚ), 180)]).1.elapsedSec = 0 := by
  have h := C5_bucket_value CHART1_SEGMENTS CHART1_INTERVAL_SECONDS
    (chartInit CHART1_SEGMENTS) [] 769 180 rfl rfl
    (by
      intro k hk
      simp only [List.length_nil, Nat.le_zero] at hk
      subst hk
      simp [sumDt, CHART1_INTERVAL_SECONDS])
    (by simp [sumDt, CHART1_INTERVAL_SECONDS])
  simpa using h

/-- Witness for C9 (amended) at a concrete input: the first commit on the
3-minute chart produces a display maximum of the amended form, at least 2. -/
theorem C9_chart_max_amended_witness :
    (chartStep CHART1_SEGMENTS CHART1_INTERVAL_SECONDS (chartInit CHART1_SEGMENTS)
        ((769 : ℚ), 180)).1.maxValue
      = ((⌈(max 1 (((chartStep CHART1_SEGMENTS CHART1_INTERVAL_SECONDS
            (chartInit CHART1_SEGMENTS) ((769 : ℚ), 180)).1.buffer.take
            (chartStep CHART1_SEGMENTS CHART1_INTERVAL_SECONDS
              (chartInit CHART1_SEGMENTS) ((769 : ℚ), 180)).1.index).foldl max 0))
          * (6/5)⌉ : ℤ) : ℚ)
    ∧ 2 ≤ (chartStep CHART1_SEGMENTS CHART1_INTERVAL_SECONDS (chartInit CHART1_SEGMENTS)
        ((769 : ℚ), 180)).1.maxValue :=
  C9_chart_max_amended CHART1_SEGMENTS CHART1_INTERVAL_SECONDS (chartInit CHART1_SEGMENTS)
    ((769 : ℚ), 180) (by norm_num [chartInit, CHART1_INTERVAL_SECONDS])

/-- Witness for C8 (amended) at a concrete input: a zeroed 20-slot buffer
with write index 5 is served rotated by 5. -/
theorem C8_json_order_amended_witness :
    jsonChartArray CHART1_SEGMENTS (List.replicate CHART1_SEGMENTS (0:ℚ)) 5
      = (List.replicate CHART1_SEGMENTS (0:ℚ)).drop (5 % CHART1_SEGMENTS)
        ++ (List.replicate CHART1_SEGMENTS (0:ℚ)).take (5 % CHART1_SEGMENTS) :=
  C8_json_order_amended.1 CHART1_SEGMENTS (List.replicate CHART1_SEGMENTS 0) 5
    (by norm_num [CHART1_SEGMENTS]) (by simp)

end RadiationDetector
